import Mathlib

/-!
Verification development for `yt_transcripter.py`, a single-script tool that
fetches a YouTube transcript, optionally cleans filler words, and renders it
as plain text or SRT subtitles.

The Python source is shallowly embedded below.  Strings are modelled as
`List Char` (wrapped in `String` at the API boundary), Python floats carrying
media timestamps are modelled as `ℚ` (all operations used by the script are
exact on the dyadic inputs of interest: floor division, modulus with positive
divisor, truncation to int), and fallible operations (regex search failure,
network errors raised as exceptions) are modelled with `Option`.  Regex
character classes (`\w`, `\s`) are modelled over their ASCII behaviour, and
`str.upper` on the first character is modelled as the ASCII uppercase map.
All definitions are structural recursions, so every function evaluates by
`rfl`/`decide` on concrete inputs.
-/

/- Batteries marks the arithmetic on `Rat` irreducible; restore reducibility
so that concrete timestamps evaluate by `decide`. -/
attribute [local semireducible] Rat.add Rat.sub Rat.mul Rat.inv Rat.ofScientific

/-! ### Character classes (ASCII models of Python regex classes) -/

/-- ASCII model of the Python regex class `\w` (word character). -/
def isWordChar (c : Char) : Bool :=
  c.isAlphanum || c == '_'

/-- ASCII model of the Python regex class `\s` / `str.strip` whitespace. -/
def isPySpace (c : Char) : Bool :=
  c == ' ' || c == '\t' || c == '\n' || c == '\r' || c == '\x0b' || c == '\x0c'

/-- Characters matched by the pattern in `sanitize_filename`. -/
def isBadFileChar (c : Char) : Bool :=
  c == '\\' || c == '/' || c == '*' || c == '?' || c == ':' || c == '\"' ||
    c == '<' || c == '>' || c == '|'

/-- The lowercase-to-uppercase correspondence of the ASCII letters. -/
def upperPairs : List (Char × Char) :=
  [('a', 'A'), ('b', 'B'), ('c', 'C'), ('d', 'D'), ('e', 'E'), ('f', 'F'),
   ('g', 'G'), ('h', 'H'), ('i', 'I'), ('j', 'J'), ('k', 'K'), ('l', 'L'),
   ('m', 'M'), ('n', 'N'), ('o', 'O'), ('p', 'P'), ('q', 'Q'), ('r', 'R'),
   ('s', 'S'), ('t', 'T'), ('u', 'U'), ('v', 'V'), ('w', 'W'), ('x', 'X'),
   ('y', 'Y'), ('z', 'Z')]

/-- ASCII model of `str.upper` applied to a single character
(`text[0].upper()` in `clean_transcript_text`): a lowercase letter maps to
its uppercase partner, every other character is unchanged. -/
def asciiUpper (c : Char) : Char :=
  match upperPairs.find? (fun p => p.1 == c) with
  | some p => p.2
  | none => c

/-! ### Data model -/

/-- One timed unit of transcript text (`item.start`, `item.duration`,
`item.text` in the source). -/
structure TranscriptSegment where
  start : ℚ
  duration : ℚ
  text : String
deriving DecidableEq

/-- One available caption track, as listed by the provider
(`transcript.language`, `transcript.language_code`,
`transcript.is_generated`). -/
structure TrackDescriptor where
  language : String
  language_code : String
  is_generated : Bool
deriving DecidableEq

/-- The transcript provider plus the title page, specialised to the video id
of the current run.  `tracks = none` models `YouTubeTranscriptApi().list`
raising; `fetchTrack t = none` models `t.fetch()` raising; `titlePage = none`
models `requests.get` raising; `titlePage = some html` is the fetched page
body. -/
structure ProviderState where
  tracks : Option (List TrackDescriptor)
  fetchTrack : TrackDescriptor → Option (List TranscriptSegment)
  titlePage : Option String

/-! ### `extract_video_id` (regex `(?:v=|\/)([0-9A-Za-z_-]{11})`) -/

/-- Characters of the identifier class `[0-9A-Za-z_-]`. -/
def isIdChar (c : Char) : Bool :=
  c.isAlphanum || c == '_' || c == '-'

/-- Model of `{11}` applied to the identifier class: succeed with the first
11 characters when at least 11 identifier characters follow. -/
def take11 (l : List Char) : Option (List Char) :=
  let w := l.take 11
  if w.length == 11 && w.all isIdChar then some w else none

/-- Attempt the pattern `(?:v=|\/)([0-9A-Za-z_-]{11})` at the head of the
remaining input; the `v=` alternative is tried before `/`. -/
def tryMatchAt : List Char → Option (List Char)
  | 'v' :: '=' :: rest => take11 rest
  | '/' :: rest => take11 rest
  | _ => none

/-- Leftmost-match scan of `re.search`: try the pattern at every position,
left to right. -/
def extractList : List Char → Option (List Char)
  | [] => none
  | c :: rest =>
    match tryMatchAt (c :: rest) with
    | some code => some code
    | none => extractList rest

/-- Embedding of `extract_video_id`; `none` models the `ValueError` raised
when no position matches. -/
def extract_video_id (url : String) : Option String :=
  (extractList url.data).map (fun l => String.mk l)

/-! ### `sanitize_filename`, `build_safe_filename` -/

/-- Embedding of `sanitize_filename`: drop every occurrence of a character in
the class `[\\/*?:"<>|]`. -/
def sanitize_filename (name : String) : String :=
  String.mk (name.data.filter (fun c => !isBadFileChar c))

/-- Embedding of `build_safe_filename`. -/
def build_safe_filename (title video_id extension : String) (cleaned : Bool) : String :=
  let base := title ++ " (" ++ video_id ++ ")"
  if cleaned then base ++ "_cleaned." ++ extension else base ++ "." ++ extension

/-! ### `get_video_title` (regex `<title>(.*?)</title>`, `str.replace`,
`str.strip`) -/

/-- Scan for the closing `</title>` with no newline in between (the `.` of
`.*?` excludes newlines); return the lazily captured group. -/
def untilClose : List Char → Option (List Char)
  | [] => none
  | c :: rest =>
    if ("</title>".data).isPrefixOf (c :: rest) then some []
    else if c = '\n' then none
    else (untilClose rest).map (fun cap => c :: cap)

/-- Leftmost match of `re.search(r"<title>(.*?)</title>", html)`, returning
the captured group. -/
def findTitleCapture : List Char → Option (List Char)
  | [] => none
  | c :: rest =>
    if ("<title>".data).isPrefixOf (c :: rest) then
      match untilClose ((c :: rest).drop 7) with
      | some cap => some cap
      | none => findTitleCapture rest
    else findTitleCapture rest

/-- Worker for `str.replace` (replace all non-overlapping occurrences, left
to right); `skip` counts characters of a matched occurrence still to drop. -/
def replaceAllGo (pat rep : List Char) : Nat → List Char → List Char
  | _, [] => []
  | k + 1, _ :: rest => replaceAllGo pat rep k rest
  | 0, c :: rest =>
    if pat ≠ [] ∧ pat.isPrefixOf (c :: rest) then
      rep ++ replaceAllGo pat rep (pat.length - 1) rest
    else c :: replaceAllGo pat rep 0 rest

/-- Embedding of Python `str.replace`. -/
def replaceAll (pat rep l : List Char) : List Char :=
  replaceAllGo pat rep 0 l

/-- Right trim: drop the trailing run of whitespace. -/
def trimRight : List Char → List Char
  | [] => []
  | c :: rest =>
    match trimRight rest with
    | [] => if isPySpace c then [] else [c]
    | r => c :: r

/-- Embedding of Python `str.strip` (ASCII whitespace model). -/
def pyStrip (l : List Char) : List Char :=
  trimRight (l.dropWhile isPySpace)

/-- Embedding of `get_video_title`.  `page = none` models `requests.get`
raising, in which case the exception propagates to the caller (result
`none`); otherwise the `<title>` capture is cleaned and sanitized, falling
back to the bare video id when the page has no extractable title. -/
def get_video_title (video_id : String) (page : Option String) : Option String :=
  match page with
  | none => none
  | some html =>
    match findTitleCapture html.data with
    | some cap =>
        some (sanitize_filename (String.mk (pyStrip (replaceAll " - YouTube".data [] cap))))
    | none => some video_id

/-! ### Timestamp formatting (`format_timestamp_srt`, `format_timestamp_txt`)

Python floats are modelled as `ℚ`; `//` is floor division, `%` is the
floor-based modulus (sign of the divisor), `int(...)` truncates toward
zero. -/

/-- Floor of a rational as an integer (Python `math.floor` / `//`). -/
def ratFloor (q : ℚ) : ℤ :=
  Int.fdiv q.num (q.den : ℤ)

/-- Python `int(...)` applied to a float: truncation toward zero. -/
def pytrunc (q : ℚ) : ℤ :=
  if q < 0 then -ratFloor (-q) else ratFloor q

/-- Python `%` on floats (result has the sign of the divisor). -/
def pymod (a b : ℚ) : ℚ :=
  a - b * (ratFloor (a / b) : ℚ)

/-- Decimal rendering of a natural number zero-padded to width `w`
(Python format spec `0{w}`). -/
def padNat (w : Nat) (n : Nat) : String :=
  let s := Nat.repr n
  String.mk (List.replicate (w - s.length) '0') ++ s

/-- Decimal rendering of an integer zero-padded to total width `w`,
matching Python `f"{n:0{w}d}"` (the sign counts toward the width). -/
def padInt (w : Nat) (n : ℤ) : String :=
  if n < 0 then "-" ++ padNat (w - 1) n.natAbs else padNat w n.toNat

/-- Embedding of `format_timestamp_srt`. -/
def format_timestamp_srt (seconds : ℚ) : String :=
  let hours := ratFloor (seconds / 3600)
  let minutes := ratFloor (pymod seconds 3600 / 60)
  let secs := pytrunc (pymod seconds 60)
  let millis := pytrunc ((seconds - (pytrunc seconds : ℚ)) * 1000)
  padInt 2 hours ++ ":" ++ padInt 2 minutes ++ ":" ++ padInt 2 secs ++ "," ++ padInt 3 millis

/-- Embedding of `format_timestamp_txt`. -/
def format_timestamp_txt (seconds : ℚ) : String :=
  let hours := ratFloor (seconds / 3600)
  let minutes := ratFloor (pymod seconds 3600 / 60)
  let secs := pytrunc (pymod seconds 60)
  padInt 2 hours ++ ":" ++ padInt 2 minutes ++ ":" ++ padInt 2 secs

/-! ### Output formatters (`format_as_txt`, `format_as_srt`) -/

/-- The lines accumulated by the loop in `format_as_txt`. -/
def txtLines (keep_timestamps : Bool) : List TranscriptSegment → List String
  | [] => []
  | item :: rest =>
    (if keep_timestamps then
      "[" ++ format_timestamp_txt item.start ++ "] " ++ item.text
    else item.text) :: txtLines keep_timestamps rest

/-- Embedding of `format_as_txt`. -/
def format_as_txt (transcript : List TranscriptSegment) (keep_timestamps : Bool) : String :=
  String.intercalate "\n" (txtLines keep_timestamps transcript)

/-- The lines accumulated by the loop in `format_as_srt`, starting at cue
index `i` (`enumerate(transcript, start=1)` passes `1`). -/
def srtLines : Nat → List TranscriptSegment → List String
  | _, [] => []
  | i, item :: rest =>
    toString i ::
      (format_timestamp_srt item.start ++ " --> " ++
        format_timestamp_srt (item.start + item.duration)) ::
      item.text :: "" :: srtLines (i + 1) rest

/-- Embedding of `format_as_srt`. -/
def format_as_srt (transcript : List TranscriptSegment) : String :=
  String.intercalate "\n" (srtLines 1 transcript)

/-! ### `fetch_smart_transcript` -/

/-- Python substring containment (`pat in s`). -/
def containsSub (pat : List Char) : List Char → Bool
  | [] => pat.isEmpty
  | c :: rest => pat.isPrefixOf (c :: rest) || containsSub pat rest

/-- The tier-1 test of the selector: `"en" in transcript.language_code`. -/
def hasEnCode (t : TrackDescriptor) : Bool :=
  containsSub "en".data t.language_code.data

/-- Embedding of `fetch_smart_transcript`: three sequential scans over the
track list (any English variant, then any manual track, then any
auto-generated track); the first matching track is fetched and its result
returned.  A raised exception anywhere (listing failure, fetch failure)
yields `none`. -/
def fetch_smart_transcript (st : ProviderState) : Option (List TranscriptSegment) :=
  match st.tracks with
  | none => none
  | some tracks =>
    match tracks.find? hasEnCode with
    | some t => st.fetchTrack t
    | none =>
      match tracks.find? (fun t => !t.is_generated) with
      | some t => st.fetchTrack t
      | none =>
        match tracks.find? (fun t => t.is_generated) with
        | some t => st.fetchTrack t
        | none => none

/-! ### `clean_transcript_text`

Each regex pass of the Python function is embedded as a structural scan
whose behaviour matches `re.sub` left-to-right leftmost matching with the
replacement not rescanned. -/

/-- Pass 1, `re.sub(r"\[.*?\]", "", text)`: worker.  `buf` is `none` when not
inside a pending `[`, and `some stack` (reversed characters seen since the
`[`) otherwise.  A `]` closes the bracket and discards it with its contents;
a newline or end of input fails the pending match, restoring the buffered
characters literally (no bracket opened inside the buffer can match either,
because no `]` occurs before the same newline / end). -/
def rb : Option (List Char) → List Char → List Char
  | none, [] => []
  | none, c :: rest => if c = '[' then rb (some []) rest else c :: rb none rest
  | some buf, [] => '[' :: buf.reverse
  | some buf, c :: rest =>
    if c = ']' then rb none rest
    else if c = '\n' then ('[' :: buf.reverse) ++ '\n' :: rb none rest
    else rb (some (c :: buf)) rest

/-- Pass 1 of `clean_transcript_text`: remove bracketed annotations. -/
def removeBrackets (l : List Char) : List Char :=
  rb none l

/-- Case-insensitive match of `pat` against a prefix of the input
(ASCII case folding, as used by `re.IGNORECASE`). -/
def matchesCI : List Char → List Char → Bool
  | [], _ => true
  | _ :: _, [] => false
  | p :: ps, c :: cs => p.toLower == c.toLower && matchesCI ps cs

/-- Whether the input starts with a word character (negation of the
trailing `\b` condition). -/
def wordAfter (l : List Char) : Bool :=
  match l with
  | [] => false
  | c :: _ => isWordChar c

/-- The filler-word alternation `(uh|um|erm|ah|like)`, in source order. -/
def fillerWords : List (List Char) :=
  ["uh".data, "um".data, "erm".data, "ah".data, "like".data]

/-- Try each filler alternative in order at the current position; an
alternative succeeds when it matches case-insensitively and is followed by a
word boundary.  Returns the matched length. -/
def firstFiller : List (List Char) → List Char → Option Nat
  | [], _ => none
  | p :: ps, l =>
    if matchesCI p l && !wordAfter (l.drop p.length) then some p.length
    else firstFiller ps l

/-- Pass 2, `re.sub(r"\b(uh|um|erm|ah|like)\b", "", text, flags=IGNORECASE)`:
worker.  `skip` counts remaining characters of a matched filler to drop;
`prevWord` tracks whether the previous character of the original text is a
word character (for the leading `\b`). -/
def rf : Nat → Bool → List Char → List Char
  | _, _, [] => []
  | k + 1, _, _ :: rest => rf k true rest
  | 0, prevWord, c :: rest =>
    if prevWord then c :: rf 0 (isWordChar c) rest
    else
      match firstFiller fillerWords (c :: rest) with
      | some n => rf (n - 1) true rest
      | none => c :: rf 0 (isWordChar c) rest

/-- Pass 2 of `clean_transcript_text`: remove standalone filler words. -/
def removeFillers (l : List Char) : List Char :=
  rf 0 false l

/-- Attempt `\b(\w+)\s+\1\b` at the current position (which the caller
guarantees is a word boundary before a word character): the greedy `(\w+)`
is forced to the whole word run, `\s+` to the whole whitespace run, and the
backreference to exactly the length of the first word followed by a
boundary.  Returns the first word (the replacement `\1`) and the total
matched length. -/
def dupMatch (l : List Char) : Option (List Char × Nat) :=
  let w1 := l.takeWhile isWordChar
  let rest1 := l.dropWhile isWordChar
  let s := rest1.takeWhile isPySpace
  let rest2 := rest1.dropWhile isPySpace
  if w1 = [] then none
  else if s = [] then none
  else if matchesCI w1 rest2 && !wordAfter (rest2.drop w1.length) then
    some (w1, w1.length + s.length + w1.length)
  else none

/-- Pass 3, `re.sub(r"\b(\w+)\s+\1\b", r"\1", text, flags=IGNORECASE)`:
worker, with the same `skip`/`prevWord` bookkeeping as `rf`.  On a match the
first word is emitted (the replacement) and the whole matched region
skipped; scanning resumes after the match, so a replacement is never
rescanned (hence `"a a a"` collapses only its first pair). -/
def cd : Nat → Bool → List Char → List Char
  | _, _, [] => []
  | k + 1, _, _ :: rest => cd k true rest
  | 0, prevWord, c :: rest =>
    if prevWord then c :: cd 0 (isWordChar c) rest
    else if isWordChar c then
      match dupMatch (c :: rest) with
      | some (w1, n) => w1 ++ cd (n - 1) true rest
      | none => c :: cd 0 true rest
    else c :: cd 0 false rest

/-- Pass 3 of `clean_transcript_text`: collapse immediately-adjacent
case-insensitive duplicate words. -/
def collapseDups (l : List Char) : List Char :=
  cd 0 false l

/-- Pass 4, `text.replace("\n", " ")`. -/
def replaceNl : List Char → List Char
  | [] => []
  | c :: rest => (if c = '\n' then ' ' else c) :: replaceNl rest

/-- Pass 5, `re.sub(r"\s+", " ", text)`: worker.  `prevWs` records whether the
previous character belonged to a whitespace run already replaced by a single
space. -/
def cw : Bool → List Char → List Char
  | _, [] => []
  | prevWs, c :: rest =>
    if isPySpace c then
      if prevWs then cw true rest else ' ' :: cw true rest
    else c :: cw false rest

/-- Pass 5 of `clean_transcript_text`: collapse whitespace runs to a single
space. -/
def collapseWs (l : List Char) : List Char :=
  cw false l

/-- Passes 6–7: `text.strip()` then `text[0].upper() + text[1:]`. -/
def capFirst : List Char → List Char
  | [] => []
  | c :: rest => asciiUpper c :: rest

/-- Embedding of `clean_transcript_text`: the six passes in source order. -/
def cleanChars (l : List Char) : List Char :=
  capFirst (pyStrip (collapseWs (replaceNl (collapseDups (removeFillers (removeBrackets l))))))

/-- Embedding of `clean_transcript_text` at the `String` level. -/
def clean_transcript_text (text : String) : String :=
  String.mk (cleanChars text.data)

/-! ### `main` -/

/-- The `--format` choice. -/
inductive OutFormat where
  | txt
  | srt
deriving DecidableEq

/-- The parsed CLI arguments of one invocation. -/
structure Args where
  url : String
  timestamps : Bool
  save : Bool
  lang : String
  format : OutFormat
  clean : Bool

/-- The observable outcome of one run of `main`:
`invalidUrl` = the `ValueError` from `extract_video_id` was caught, its
message printed, and `main` returned without output;
`noTranscript` = the `if not transcript` diagnostic path (provider failure,
no track, or an empty fetched transcript);
`crashed` = an exception propagated out of `main` unhandled (no output);
`printed` = the no-save path (optional cleaned text, then the original);
`saved` = the save path, listing the `(filename, contents)` pairs written. -/
inductive RunResult where
  | invalidUrl (msg : String)
  | noTranscript
  | crashed
  | printed (cleaned : Option String) (original : String)
  | saved (files : List (String × String))
deriving DecidableEq

/-- The extension string chosen by `main` for the output format. -/
def extOf : OutFormat → String
  | OutFormat.txt => "txt"
  | OutFormat.srt => "srt"

/-- The `output_text` computed by `main` (lines 273–278). -/
def renderOutput (args : Args) (segs : List TranscriptSegment) : String :=
  match args.format with
  | OutFormat.txt => format_as_txt segs args.timestamps
  | OutFormat.srt => format_as_srt segs

/-- The `cleaned_text` computed by `main` (lines 280–282): present only with
`--clean` and txt format. -/
def cleanedOutput (args : Args) (output : String) : Option String :=
  if args.clean = true ∧ args.format = OutFormat.txt then
    some (clean_transcript_text output)
  else none

/-- Python truthiness of `cleaned_text` (`if cleaned_text:`): `None` and the
empty string are falsy. -/
def shownClean : Option String → Option String
  | none => none
  | some c => if c = "" then none else some c

/-- The `(filename, contents)` pairs written in the save branch
(lines 284–296); the cleaned file is written only when `cleaned_text` is
truthy. -/
def savedFiles (title video_id ext : String) (output : String)
    (cleaned : Option String) : List (String × String) :=
  (build_safe_filename title video_id ext false, output) ::
    (match shownClean cleaned with
     | some c => [(build_safe_filename title video_id "txt" true, c)]
     | none => [])

/-- Embedding of `main` from argument parsing to its observable outcome.
The provider state stands for the network collaborators, specialised to the
extracted video id. -/
def main_run (args : Args) (st : ProviderState) : RunResult :=
  match extract_video_id args.url with
  | none => RunResult.invalidUrl "Could not extract video ID from URL"
  | some vid =>
    let _languages := (args.lang.splitOn ",").map (fun s => String.mk (pyStrip s.data))
    match fetch_smart_transcript st with
    | none => RunResult.noTranscript
    | some segs =>
      if segs = [] then RunResult.noTranscript
      else
        let output := renderOutput args segs
        let cleaned := cleanedOutput args output
        if args.save then
          match get_video_title vid st.titlePage with
          | none => RunResult.crashed
          | some title => RunResult.saved (savedFiles title vid (extOf args.format) output cleaned)
        else RunResult.printed (shownClean cleaned) output

/-! ### Observable predicates on cleaned text -/

/-- No newline character occurs in the list. -/
def noNewline : List Char → Bool
  | [] => true
  | c :: rest => if c = '\n' then false else noNewline rest

/-- No two consecutive characters are both whitespace. -/
def noAdjacentWs : List Char → Bool
  | a :: b :: rest => (!(isPySpace a && isPySpace b)) && noAdjacentWs (b :: rest)
  | _ => true

/-- The first character, if any, is not whitespace. -/
def headNotWs : List Char → Bool
  | [] => true
  | c :: _ => !isPySpace c

/-- The last character, if any, is not whitespace. -/
def lastNotWs : List Char → Bool
  | [] => true
  | [c] => !isPySpace c
  | _ :: c :: rest => lastNotWs (c :: rest)

/-! ## Helper lemmas -/

/-- `txtLines` is the per-segment map described by the spec. -/
theorem txtLines_eq_map (keep : Bool) :
    ∀ (segs : List TranscriptSegment),
      txtLines keep segs = segs.map (fun item =>
        if keep then "[" ++ format_timestamp_txt item.start ++ "] " ++ item.text
        else item.text)
  | [] => rfl
  | _ :: rest => by simp [txtLines, txtLines_eq_map keep rest]

/-! ## Claim theorems -/

/-- C2: the selected transcript and the rendered output are independent of
the `--lang` argument: two runs on the same URL against the same provider
state that differ only in `lang` produce identical outcomes, because the
heuristic selector `fetch_smart_transcript` never consults the parsed
language list. -/
theorem main_run_lang_independent (a : Args) (st : ProviderState) (l1 l2 : String) :
    main_run { a with lang := l1 } st = main_run { a with lang := l2 } st := rfl

/-- C3 counterexample: text cleaning is not idempotent on every input.
`re.sub` does not rescan its replacement, so `"a a a"` cleans to `"A a"`,
which a second cleaning collapses to `"A"`. -/
theorem clean_not_idempotent :
    clean_transcript_text (clean_transcript_text "a a a") ≠ clean_transcript_text "a a a" := by
  decide

/-- C3 (amended): cleaning is idempotent on representative already-clean
inputs (the representative inputs of the spec, plus empty and plain text),
though not on every string. -/
theorem clean_idempotent_on_representatives :
    clean_transcript_text (clean_transcript_text "") = clean_transcript_text "" ∧
    clean_transcript_text (clean_transcript_text "[Music] hello") =
      clean_transcript_text "[Music] hello" ∧
    clean_transcript_text (clean_transcript_text "the the cat cat") =
      clean_transcript_text "the the cat cat" ∧
    clean_transcript_text (clean_transcript_text "the cat the") =
      clean_transcript_text "the cat the" ∧
    clean_transcript_text (clean_transcript_text "Hello world") =
      clean_transcript_text "Hello world" ∧
    clean_transcript_text (clean_transcript_text "uh um like") =
      clean_transcript_text "uh um like" := by
  refine ⟨rfl, rfl, rfl, rfl, rfl, rfl⟩

/-- C4: cleaning collapses only immediately-adjacent case-insensitive
duplicate words: `"the the cat cat"` becomes `"The cat"`, while the
non-adjacent duplicate in `"the cat the"` is preserved (up to the initial
capitalization). -/
theorem clean_collapses_only_adjacent_duplicates :
    clean_transcript_text "the the cat cat" = "The cat" ∧
    clean_transcript_text "the cat the" = "The cat the" := ⟨rfl, rfl⟩

/-- C8: plain-text formatting renders each segment as one line (optionally
prefixed with a zero-padded `[HH:MM:SS]` timestamp computed from `start`),
lines joined with newline; with the spec example checked both ways. -/
theorem format_as_txt_spec :
    (∀ (segs : List TranscriptSegment) (keep : Bool),
      format_as_txt segs keep = String.intercalate "\n" (segs.map (fun item =>
        if keep then "[" ++ format_timestamp_txt item.start ++ "] " ++ item.text
        else item.text))) ∧
    format_as_txt [⟨0, 2, "Hi"⟩, ⟨2, 3, "there"⟩] false = "Hi\nthere" ∧
    format_as_txt [⟨0, 2, "Hi"⟩, ⟨2, 3, "there"⟩] true =
      "[00:00:00] Hi\n[00:00:02] there" := by
  refine ⟨fun segs keep => ?_, by decide, by decide⟩
  rw [format_as_txt, txtLines_eq_map]

/-- C9: a transcript fetched successfully but containing zero segments takes
exactly the branch an unavailable transcript takes: `main` reports
`noTranscript` and writes nothing, in both cases. -/
theorem empty_transcript_treated_as_unavailable :
    (∀ (args : Args) (st : ProviderState) (vid : String),
      extract_video_id args.url = some vid →
      fetch_smart_transcript st = some [] →
      main_run args st = RunResult.noTranscript) ∧
    (∀ (args : Args) (st : ProviderState) (vid : String),
      extract_video_id args.url = some vid →
      fetch_smart_transcript st = none →
      main_run args st = RunResult.noTranscript) := by
  constructor <;> intro args st vid h1 h2 <;> simp [main_run, h1, h2]

/-- C9 witness: a concrete run whose fetch returns an empty segment list
ends in the no-transcript diagnostic. -/
theorem empty_transcript_treated_as_unavailable_witness :
    main_run ⟨"v=abcdefghijk", false, false, "en", OutFormat.txt, false⟩
      ⟨some [⟨"English", "en", false⟩], fun _ => some [], none⟩ =
      RunResult.noTranscript :=
  empty_transcript_treated_as_unavailable.1
    ⟨"v=abcdefghijk", false, false, "en", OutFormat.txt, false⟩
    ⟨some [⟨"English", "en", false⟩], fun _ => some [], none⟩
    "abcdefghijk" (by decide) (by decide)

/-- C6 counterexample: a network failure in the title fetch is fatal, not
non-fatal: `get_video_title` calls `requests.get` outside any handler, so
the exception propagates out of `main` and no file is written. -/
theorem title_network_failure_crashes :
    main_run ⟨"https://www.youtube.com/watch?v=dQw4w9WgXcQ", false, true, "en", OutFormat.txt, false⟩
      ⟨some [⟨"English", "en", false⟩], fun _ => some [⟨0, 1, "hi"⟩], none⟩ =
      RunResult.crashed := by
  decide

/-- C6 (amended): only the no-extractable-title failure of the title step is
non-fatal: when the page is fetched but contains no title match, the run
completes and filename construction falls back to the bare video identifier
as the stem; a network failure of the title fetch instead aborts the run. -/
theorem title_parse_failure_falls_back (args : Args) (st : ProviderState)
    (vid : String) (segs : List TranscriptSegment) (html : String)
    (hurl : extract_video_id args.url = some vid)
    (hfetch : fetch_smart_transcript st = some segs)
    (hne : segs ≠ [])
    (hsave : args.save = true)
    (hpage : st.titlePage = some html)
    (htitle : findTitleCapture html.data = none) :
    main_run args st =
      RunResult.saved (savedFiles vid vid (extOf args.format)
        (renderOutput args segs) (cleanedOutput args (renderOutput args segs))) := by
  simp [main_run, hurl, hfetch, hne, hsave, get_video_title, hpage, htitle]

/-- C6 witness: a concrete run whose title page has no `<title>` tag
completes and uses the video id as the filename stem. -/
theorem title_parse_failure_falls_back_witness :
    main_run ⟨"v=abcdefghijk", false, true, "en", OutFormat.txt, false⟩
      ⟨some [⟨"English", "en", false⟩], fun _ => some [⟨0, 1, "hi"⟩],
        some "<html>x</html>"⟩ =
      RunResult.saved [("abcdefghijk (abcdefghijk).txt", "hi")] :=
  (title_parse_failure_falls_back
    ⟨"v=abcdefghijk", false, true, "en", OutFormat.txt, false⟩
    ⟨some [⟨"English", "en", false⟩], fun _ => some [⟨0, 1, "hi"⟩],
      some "<html>x</html>"⟩
    "abcdefghijk" [⟨0, 1, "hi"⟩] "<html>x</html>"
    (by decide) (by decide) (by decide) rfl rfl (by decide)).trans (by decide)

/-- Line-level characterization of `srtLines`: the cue starting at list
index `4*i` consists of the running index, the time range, the text, and a
blank separator. -/
theorem srtLines_getElem :
    ∀ (segs : List TranscriptSegment) (n i : Nat) (h : i < segs.length),
      (srtLines n segs)[4 * i]? = some (toString (n + i)) ∧
      (srtLines n segs)[4 * i + 1]? =
        some (format_timestamp_srt segs[i].start ++ " --> " ++
          format_timestamp_srt (segs[i].start + segs[i].duration)) ∧
      (srtLines n segs)[4 * i + 2]? = some segs[i].text ∧
      (srtLines n segs)[4 * i + 3]? = some "" := by
  intro segs
  induction segs with
  | nil => intro n i h; simp at h
  | cons item rest ih =>
    intro n i h
    cases i with
    | zero => simp [srtLines]
    | succ k =>
      have hk : k < rest.length := by
        have := h; simp [List.length_cons] at this; omega
      obtain ⟨h1, h2, h3, h4⟩ := ih (n + 1) k hk
      refine ⟨?_, ?_, ?_, ?_⟩
      · rw [show 4 * (k + 1) = 4 * k + 1 + 1 + 1 + 1 from by ring]
        simp only [srtLines, List.getElem?_cons_succ]
        rw [show n + (k + 1) = n + 1 + k from by omega]
        exact h1
      · rw [show 4 * (k + 1) + 1 = 4 * k + 1 + 1 + 1 + 1 + 1 from by ring]
        simp only [srtLines, List.getElem?_cons_succ, List.getElem_cons_succ]
        exact h2
      · rw [show 4 * (k + 1) + 2 = 4 * k + 2 + 1 + 1 + 1 + 1 from by ring]
        simp only [srtLines, List.getElem?_cons_succ, List.getElem_cons_succ]
        exact h3
      · rw [show 4 * (k + 1) + 3 = 4 * k + 3 + 1 + 1 + 1 + 1 from by ring]
        simp only [srtLines, List.getElem?_cons_succ]
        exact h4

/-- C7: subtitle formatting renders the i-th segment (1-based) as a cue of
four lines — index, time range `HH:MM:SS,mmm --> HH:MM:SS,mmm` with
end = start + duration, the text, and a blank separator — with all lines
joined by newline; the spec example segment renders as stated. -/
theorem format_as_srt_cue_structure :
    (∀ (segs : List TranscriptSegment),
      format_as_srt segs = String.intercalate "\n" (srtLines 1 segs)) ∧
    (∀ (segs : List TranscriptSegment) (i : Nat) (h : i < segs.length),
      (srtLines 1 segs)[4 * i]? = some (toString (i + 1)) ∧
      (srtLines 1 segs)[4 * i + 1]? =
        some (format_timestamp_srt segs[i].start ++ " --> " ++
          format_timestamp_srt (segs[i].start + segs[i].duration)) ∧
      (srtLines 1 segs)[4 * i + 2]? = some segs[i].text ∧
      (srtLines 1 segs)[4 * i + 3]? = some "") ∧
    format_as_srt [⟨(1.5 : ℚ), (2.25 : ℚ), "Hello"⟩] =
      "1\n00:00:01,500 --> 00:00:03,750\nHello\n" := by
  refine ⟨fun segs => rfl, fun segs i h => ?_, by decide⟩
  have := srtLines_getElem segs 1 i h
  simpa [Nat.add_comm] using this

/-- C7 witness: the time-range line of the spec example cue, obtained from
the cue-structure theorem at index 0. -/
theorem format_as_srt_cue_structure_witness :
    (srtLines 1 [⟨(1.5 : ℚ), (2.25 : ℚ), "Hello"⟩])[1]? =
      some "00:00:01,500 --> 00:00:03,750" := by
  have h := (format_as_srt_cue_structure.2.1
    [⟨(1.5 : ℚ), (2.25 : ℚ), "Hello"⟩] 0 (by decide)).2.1
  exact h.trans (by decide)

/-- `re.search` returns the leftmost position at which the video-id pattern
matches. -/
theorem extractList_of_first :
    ∀ (u : List Char) (i : Nat) (code : List Char),
      tryMatchAt (u.drop i) = some code →
      (∀ j, j < i → tryMatchAt (u.drop j) = none) →
      extractList u = some code := by
  intro u
  induction u with
  | nil =>
    intro i code hm _
    rw [List.drop_nil] at hm
    exact Option.noConfusion hm
  | cons c rest ih =>
    intro i code hm hmin
    cases i with
    | zero =>
      rw [List.drop_zero] at hm
      simp [extractList, hm]
    | succ k =>
      have h0 : tryMatchAt (c :: rest) = none := by
        have := hmin 0 (Nat.succ_pos k)
        simpa using this
      rw [List.drop_succ_cons] at hm
      simp only [extractList, h0]
      exact ih k code hm (fun j hj => by
        have := hmin (j + 1) (Nat.succ_lt_succ hj)
        simpa using this)

/-- `re.search` fails exactly when no position matches. -/
theorem extractList_none :
    ∀ (u : List Char), (∀ j, tryMatchAt (u.drop j) = none) → extractList u = none := by
  intro u
  induction u with
  | nil => intro _; rfl
  | cons c rest ih =>
    intro hall
    have h0 : tryMatchAt (c :: rest) = none := by simpa using hall 0
    simp only [extractList, h0]
    exact ih (fun j => by simpa using hall (j + 1))

/-- C5: when some position of the URL starts `v=` or `/` followed by 11
identifier characters, extraction returns the 11 characters of the leftmost
such match; when no position does, extraction fails, and `main` catches the
error, prints its message, and returns without writing any output. -/
theorem extract_video_id_spec :
    (∀ (s : String) (i : Nat) (code : List Char),
      tryMatchAt (s.data.drop i) = some code →
      (∀ j, j < i → tryMatchAt (s.data.drop j) = none) →
      extract_video_id s = some (String.mk code)) ∧
    (∀ (s : String), (∀ j, tryMatchAt (s.data.drop j) = none) →
      extract_video_id s = none) ∧
    (∀ (args : Args) (st : ProviderState),
      extract_video_id args.url = none →
      main_run args st = RunResult.invalidUrl "Could not extract video ID from URL") := by
  refine ⟨fun s i code hm hmin => ?_, fun s hall => ?_, fun args st h => ?_⟩
  · unfold extract_video_id
    rw [extractList_of_first s.data i code hm hmin]
    rfl
  · unfold extract_video_id
    rw [extractList_none s.data hall]
    rfl
  · simp [main_run, h]

/-- C5 witness: the leftmost-match clause applied to a concrete watch URL
(the `v=` match at position 30, no earlier position matching). -/
theorem extract_video_id_spec_witness :
    extract_video_id "https://www.youtube.com/watch?v=dQw4w9WgXcQ" =
      some "dQw4w9WgXcQ" :=
  extract_video_id_spec.1 "https://www.youtube.com/watch?v=dQw4w9WgXcQ" 30
    "dQw4w9WgXcQ".data (by decide) (by decide)

/-- First-index characterization of `List.find?`. -/
theorem find?_eq_some_of_first {α : Type} (p : α → Bool) :
    ∀ (l : List α) (i : Nat) (h : i < l.length),
      p l[i] = true →
      (∀ (j : Nat) (hj : j < l.length), j < i → p l[j] = false) →
      l.find? p = some l[i] := by
  intro l
  induction l with
  | nil => intro i h; exact absurd h (Nat.not_lt_zero i)
  | cons a t ih =>
    intro i h hp hmin
    cases i with
    | zero =>
      simp only [List.getElem_cons_zero] at hp ⊢
      exact List.find?_cons_of_pos t hp
    | succ k =>
      have h0 : p a = false := by
        have := hmin 0 (by simp) (Nat.succ_pos k)
        simpa using this
      have hk : k < t.length := by
        have := h; simp [List.length_cons] at this; omega
      rw [List.find?_cons_of_neg t (by simp [h0])]
      have := ih k hk (by simpa using hp) (fun j hj hji => by
        have := hmin (j + 1) (by simpa using Nat.succ_lt_succ hj) (Nat.succ_lt_succ hji)
        simpa using this)
      simpa using this

/-- C1: the selector applies the three-tier policy in order with first match
winning — the first track whose code contains `"en"`, else the first manual
track, else the first auto-generated track — fetching and returning that
track's result; the empty list yields `none`; and on the spec example list
the auto-generated `en-US` track is selected over the manual `fr` track. -/
theorem fetch_smart_policy :
    (∀ (tracks : List TrackDescriptor)
      (fetch : TrackDescriptor → Option (List TranscriptSegment))
      (page : Option String) (i : Nat) (h : i < tracks.length),
      hasEnCode tracks[i] = true →
      (∀ (j : Nat) (hj : j < tracks.length), j < i → hasEnCode tracks[j] = false) →
      fetch_smart_transcript ⟨some tracks, fetch, page⟩ = fetch tracks[i]) ∧
    (∀ (tracks : List TrackDescriptor)
      (fetch : TrackDescriptor → Option (List TranscriptSegment))
      (page : Option String) (i : Nat) (h : i < tracks.length),
      (∀ t ∈ tracks, hasEnCode t = false) →
      tracks[i].is_generated = false →
      (∀ (j : Nat) (hj : j < tracks.length), j < i → tracks[j].is_generated = true) →
      fetch_smart_transcript ⟨some tracks, fetch, page⟩ = fetch tracks[i]) ∧
    (∀ (tracks : List TrackDescriptor)
      (fetch : TrackDescriptor → Option (List TranscriptSegment))
      (page : Option String) (h0 : 0 < tracks.length),
      (∀ t ∈ tracks, hasEnCode t = false) →
      (∀ t ∈ tracks, t.is_generated = true) →
      fetch_smart_transcript ⟨some tracks, fetch, page⟩ = fetch tracks[0]) ∧
    (∀ (fetch : TrackDescriptor → Option (List TranscriptSegment))
      (page : Option String),
      fetch_smart_transcript ⟨some [], fetch, page⟩ = none) ∧
    (∀ (fetch : TrackDescriptor → Option (List TranscriptSegment))
      (page : Option String),
      fetch_smart_transcript
        ⟨some [⟨"French", "fr", false⟩, ⟨"English (US)", "en-US", true⟩], fetch, page⟩ =
        fetch ⟨"English (US)", "en-US", true⟩) := by
  refine ⟨?_, ?_, ?_, fun fetch page => rfl, fun fetch page => rfl⟩
  · intro tracks fetch page i h hp hmin
    have hf := find?_eq_some_of_first hasEnCode tracks i h hp hmin
    simp [fetch_smart_transcript, hf]
  · intro tracks fetch page i h hen hgi hmin
    have h1 : tracks.find? hasEnCode = none :=
      List.find?_eq_none.mpr (fun x hx => by simp [hen x hx])
    have h2 := find?_eq_some_of_first (fun t => !t.is_generated) tracks i h
      (by simp [hgi]) (fun j hj hji => by simp [hmin j hj hji])
    simp [fetch_smart_transcript, h1, h2]
  · intro tracks fetch page h0 hen hgen
    have h1 : tracks.find? hasEnCode = none :=
      List.find?_eq_none.mpr (fun x hx => by simp [hen x hx])
    have h2 : tracks.find? (fun t => !t.is_generated) = none :=
      List.find?_eq_none.mpr (fun x hx => by simp [hgen x hx])
    have h3 := find?_eq_some_of_first (fun t => t.is_generated) tracks 0 h0
      (by simp [hgen tracks[0] (List.getElem_mem h0)])
      (fun j hj hji => absurd hji (Nat.not_lt_zero j))
    simp [fetch_smart_transcript, h1, h2, h3]

/-- C1 witness: on the spec example list with a concrete fetch function,
tier 1 selects the auto-generated `en-US` track. -/
theorem fetch_smart_policy_witness :
    fetch_smart_transcript
      ⟨some [⟨"French", "fr", false⟩, ⟨"English (US)", "en-US", true⟩],
        fun t => some [⟨0, 1, t.language_code⟩], none⟩ =
      some [⟨0, 1, "en-US"⟩] := by
  have h := fetch_smart_policy.1
    [⟨"French", "fr", false⟩, ⟨"English (US)", "en-US", true⟩]
    (fun t => some [⟨0, 1, t.language_code⟩]) none 1 (by decide) (by decide)
    (by decide)
  exact h.trans (by decide)

/-- Whitespace classification is preserved by the ASCII uppercase map:
letters map to letters, everything else is unchanged. -/
theorem isPySpace_asciiUpper (c : Char) : isPySpace (asciiUpper c) = isPySpace c := by
  have hcase : asciiUpper c = c ∨
      ∃ p, p ∈ upperPairs ∧ p.1 = c ∧ asciiUpper c = p.2 := by
    unfold asciiUpper
    cases hf : upperPairs.find? (fun p => p.1 == c) with
    | none => exact Or.inl rfl
    | some p =>
      have hbeq : (p.1 == c) = true := by
        have := List.find?_some hf
        simpa using this
      exact Or.inr ⟨p, List.mem_of_find?_eq_some hf, eq_of_beq hbeq, rfl⟩
  rcases hcase with h | ⟨p, hmem, hfst, hup⟩
  · rw [h]
  · have h1 : isPySpace p.2 = false := by
      have hall : ∀ q ∈ upperPairs, isPySpace q.2 = false := by decide
      exact hall p hmem
    have h2 : isPySpace p.1 = false := by
      have hall : ∀ q ∈ upperPairs, isPySpace q.1 = false := by decide
      exact hall p hmem
    rw [hup, h1, ← hfst, h2]

/-- Heads and tails of newline-free lists. -/
theorem noNewline_cons {c : Char} {l : List Char}
    (h : noNewline (c :: l) = true) : c ≠ '\n' ∧ noNewline l = true := by
  by_cases hc : c = '\n'
  · rw [hc] at h
    simp [noNewline] at h
  · refine ⟨hc, ?_⟩
    simpa [noNewline, hc] using h

/-- Prepending a non-newline character preserves `noNewline`. -/
theorem noNewline_intro {c : Char} {l : List Char}
    (h1 : c ≠ '\n') (h2 : noNewline l = true) : noNewline (c :: l) = true := by
  simp only [noNewline, if_neg h1]
  exact h2

/-- The newline-replacement pass leaves no newline. -/
theorem noNewline_replaceNl : ∀ (l : List Char), noNewline (replaceNl l) = true := by
  intro l
  induction l with
  | nil => rfl
  | cons c rest ih =>
    by_cases hc : c = '\n'
    · simpa [replaceNl, hc] using noNewline_intro (by decide) ih
    · simpa [replaceNl, hc] using noNewline_intro hc ih

/-- Whitespace collapsing preserves the absence of newlines. -/
theorem noNewline_cw : ∀ (l : List Char) (b : Bool),
    noNewline l = true → noNewline (cw b l) = true := by
  intro l
  induction l with
  | nil => intro b _; rfl
  | cons c rest ih =>
    intro b h
    obtain ⟨hc, hrest⟩ := noNewline_cons h
    cases hsp : isPySpace c with
    | true =>
      cases b with
      | true => simpa [cw, hsp] using ih true hrest
      | false => simpa [cw, hsp] using noNewline_intro (by decide) (ih true hrest)
    | false =>
      simpa [cw, hsp] using noNewline_intro hc (ih false hrest)

/-- Inside a whitespace run, the next character emitted by `cw` is not
whitespace. -/
theorem headNotWs_cw_true : ∀ (l : List Char), headNotWs (cw true l) = true := by
  intro l
  induction l with
  | nil => rfl
  | cons c rest ih =>
    cases hsp : isPySpace c with
    | true => simpa [cw, hsp] using ih
    | false => simp [cw, hsp, headNotWs]

/-- The tail of a `noAdjacentWs` list. -/
theorem noAdjacentWs_tail {a : Char} {l : List Char}
    (h : noAdjacentWs (a :: l) = true) : noAdjacentWs l = true := by
  cases l with
  | nil => rfl
  | cons b rest =>
    simp only [noAdjacentWs, Bool.and_eq_true] at h
    exact h.2

/-- Prepending a character whose pair with the head is not double
whitespace preserves `noAdjacentWs`. -/
theorem noAdjacentWs_cons {a : Char} {l : List Char}
    (hl : noAdjacentWs l = true)
    (hpair : ∀ b, l.head? = some b → (isPySpace a && isPySpace b) = false) :
    noAdjacentWs (a :: l) = true := by
  cases l with
  | nil => rfl
  | cons b rest =>
    have hp := hpair b rfl
    simp [noAdjacentWs, hp, hl]

/-- The output of whitespace collapsing has no two adjacent whitespace
characters. -/
theorem noAdjacentWs_cw : ∀ (l : List Char) (b : Bool),
    noAdjacentWs (cw b l) = true := by
  intro l
  induction l with
  | nil => intro b; rfl
  | cons c rest ih =>
    intro b
    cases hsp : isPySpace c with
    | false =>
      have he : cw b (c :: rest) = c :: cw false rest := by
        cases b <;> simp [cw, hsp]
      rw [he]
      refine noAdjacentWs_cons (ih false) ?_
      intro x hx
      simp [hsp]
    | true =>
      cases b with
      | true => simpa [cw, hsp] using ih true
      | false =>
        have he : cw false (c :: rest) = ' ' :: cw true rest := by
          simp [cw, hsp]
        rw [he]
        refine noAdjacentWs_cons (ih true) ?_
        intro x hx
        have hh := headNotWs_cw_true rest
        cases hcw : cw true rest with
        | nil =>
          rw [hcw] at hx
          exact absurd hx (by simp)
        | cons y ys =>
          rw [hcw] at hx hh
          simp only [List.head?_cons, Option.some.injEq] at hx
          subst hx
          simp only [headNotWs, Bool.not_eq_true'] at hh
          simp [hh]

/-- After dropping leading whitespace the head is not whitespace. -/
theorem headNotWs_dropWhile : ∀ (l : List Char),
    headNotWs (l.dropWhile isPySpace) = true := by
  intro l
  induction l with
  | nil => rfl
  | cons c rest ih =>
    cases hsp : isPySpace c with
    | true => simpa [List.dropWhile_cons, hsp] using ih
    | false => simp [List.dropWhile_cons, hsp, headNotWs]

/-- Dropping leading whitespace preserves `noAdjacentWs`. -/
theorem noAdjacentWs_dropWhile : ∀ (l : List Char),
    noAdjacentWs l = true → noAdjacentWs (l.dropWhile isPySpace) = true := by
  intro l
  induction l with
  | nil => intro _; rfl
  | cons c rest ih =>
    intro h
    cases hsp : isPySpace c with
    | true => simpa [List.dropWhile_cons, hsp] using ih (noAdjacentWs_tail h)
    | false => simpa [List.dropWhile_cons, hsp] using h

/-- Dropping leading whitespace preserves `noNewline`. -/
theorem noNewline_dropWhile : ∀ (l : List Char),
    noNewline l = true → noNewline (l.dropWhile isPySpace) = true := by
  intro l
  induction l with
  | nil => intro _; rfl
  | cons c rest ih =>
    intro h
    obtain ⟨hc, hrest⟩ := noNewline_cons h
    cases hsp : isPySpace c with
    | true => simpa [List.dropWhile_cons, hsp] using ih hrest
    | false => simpa [List.dropWhile_cons, hsp] using h

/-- A nonempty `trimRight` result starts with the head of its input. -/
theorem trimRight_head_eq : ∀ (l : List Char) (x : Char) (xs : List Char),
    trimRight l = x :: xs → l.head? = some x := by
  intro l x xs
  cases l with
  | nil => intro h; exact absurd h (by simp [trimRight])
  | cons c rest =>
    intro h
    simp only [trimRight] at h
    cases htr : trimRight rest with
    | nil =>
      rw [htr] at h
      by_cases hsp : isPySpace c = true
      · simp [hsp] at h
      · simp [hsp] at h
        simp [h.1]
    | cons y ys =>
      rw [htr] at h
      simp at h
      simp [h.1]

/-- The last character after trimming trailing whitespace is never
whitespace. -/
theorem trimRight_lastNotWs : ∀ (l : List Char), lastNotWs (trimRight l) = true := by
  intro l
  induction l with
  | nil => rfl
  | cons c rest ih =>
    cases htr : trimRight rest with
    | nil =>
      cases hsp : isPySpace c with
      | true =>
        have he : trimRight (c :: rest) = [] := by simp [trimRight, htr, hsp]
        rw [he]
        rfl
      | false =>
        have he : trimRight (c :: rest) = [c] := by simp [trimRight, htr, hsp]
        rw [he]
        simp [lastNotWs, hsp]
    | cons y ys =>
      have he : trimRight (c :: rest) = c :: y :: ys := by simp [trimRight, htr]
      rw [he, show lastNotWs (c :: y :: ys) = lastNotWs (y :: ys) from rfl, ← htr]
      exact ih

/-- Trimming trailing whitespace preserves a non-whitespace head. -/
theorem trimRight_headNotWs : ∀ (l : List Char),
    headNotWs l = true → headNotWs (trimRight l) = true := by
  intro l h
  cases l with
  | nil => rfl
  | cons c rest =>
    have hsp : isPySpace c = false := by simpa [headNotWs] using h
    cases htr : trimRight rest with
    | nil =>
      have he : trimRight (c :: rest) = [c] := by simp [trimRight, htr, hsp]
      rw [he]
      simp [headNotWs, hsp]
    | cons y ys =>
      have he : trimRight (c :: rest) = c :: y :: ys := by simp [trimRight, htr]
      rw [he]
      simp [headNotWs, hsp]

/-- Trimming trailing whitespace preserves `noAdjacentWs`. -/
theorem trimRight_noAdjacentWs : ∀ (l : List Char),
    noAdjacentWs l = true → noAdjacentWs (trimRight l) = true := by
  intro l
  induction l with
  | nil => intro _; rfl
  | cons c rest ih =>
    intro h
    cases htr : trimRight rest with
    | nil =>
      cases hsp : isPySpace c with
      | true =>
        have he : trimRight (c :: rest) = [] := by simp [trimRight, htr, hsp]
        rw [he]
        rfl
      | false =>
        have he : trimRight (c :: rest) = [c] := by simp [trimRight, htr, hsp]
        rw [he]
        rfl
    | cons y ys =>
      have he : trimRight (c :: rest) = c :: y :: ys := by simp [trimRight, htr]
      rw [he]
      have htail : noAdjacentWs (y :: ys) = true := by
        rw [← htr]
        exact ih (noAdjacentWs_tail h)
      refine noAdjacentWs_cons htail ?_
      intro x hx
      simp only [List.head?_cons, Option.some.injEq] at hx
      have hhead := trimRight_head_eq rest y ys htr
      cases rest with
      | nil => simp [trimRight] at htr
      | cons r rs =>
        simp only [List.head?_cons, Option.some.injEq] at hhead
        simp only [noAdjacentWs, Bool.and_eq_true, Bool.not_eq_true'] at h
        rw [← hx, ← hhead]
        exact h.1

/-- Trimming trailing whitespace preserves `noNewline`. -/
theorem trimRight_noNewline : ∀ (l : List Char),
    noNewline l = true → noNewline (trimRight l) = true := by
  intro l
  induction l with
  | nil => intro _; rfl
  | cons c rest ih =>
    intro h
    obtain ⟨hc, hrest⟩ := noNewline_cons h
    cases htr : trimRight rest with
    | nil =>
      cases hsp : isPySpace c with
      | true =>
        have he : trimRight (c :: rest) = [] := by simp [trimRight, htr, hsp]
        rw [he]
        rfl
      | false =>
        have he : trimRight (c :: rest) = [c] := by simp [trimRight, htr, hsp]
        rw [he]
        exact noNewline_intro hc rfl
    | cons y ys =>
      have he : trimRight (c :: rest) = c :: y :: ys := by simp [trimRight, htr]
      rw [he]
      refine noNewline_intro hc ?_
      rw [← htr]
      exact ih hrest

/-- The final three passes of the cleaner (newline replacement, whitespace
collapsing, stripping and capitalization) establish all four whitespace
postconditions, whatever text the earlier passes produced. -/
theorem clean_tail_postconditions : ∀ (l : List Char),
    noNewline (capFirst (pyStrip (collapseWs (replaceNl l)))) = true ∧
    noAdjacentWs (capFirst (pyStrip (collapseWs (replaceNl l)))) = true ∧
    headNotWs (capFirst (pyStrip (collapseWs (replaceNl l)))) = true ∧
    lastNotWs (capFirst (pyStrip (collapseWs (replaceNl l)))) = true := by
  intro l
  have f1 : noNewline (collapseWs (replaceNl l)) = true :=
    noNewline_cw (replaceNl l) false (noNewline_replaceNl l)
  have f2 : noAdjacentWs (collapseWs (replaceNl l)) = true :=
    noAdjacentWs_cw (replaceNl l) false
  have m1 : noNewline (pyStrip (collapseWs (replaceNl l))) = true :=
    trimRight_noNewline _ (noNewline_dropWhile _ f1)
  have m2 : noAdjacentWs (pyStrip (collapseWs (replaceNl l))) = true :=
    trimRight_noAdjacentWs _ (noAdjacentWs_dropWhile _ f2)
  have m3 : headNotWs (pyStrip (collapseWs (replaceNl l))) = true :=
    trimRight_headNotWs _ (headNotWs_dropWhile _)
  have m4 : lastNotWs (pyStrip (collapseWs (replaceNl l))) = true :=
    trimRight_lastNotWs _
  cases hm : pyStrip (collapseWs (replaceNl l)) with
  | nil =>
    exact ⟨rfl, rfl, rfl, rfl⟩
  | cons h0 t =>
    rw [hm] at m1 m2 m3 m4
    have hws : isPySpace h0 = false := by simpa [headNotWs] using m3
    have hws2 : isPySpace (asciiUpper h0) = false :=
      (isPySpace_asciiUpper h0).trans hws
    have hne : asciiUpper h0 ≠ '\n' := by
      intro he
      rw [he] at hws2
      simp [isPySpace] at hws2
    obtain ⟨-, m1t⟩ := noNewline_cons m1
    have hcap : capFirst (h0 :: t) = asciiUpper h0 :: t := rfl
    rw [hcap]
    refine ⟨noNewline_intro hne m1t, ?_, ?_, ?_⟩
    · refine noAdjacentWs_cons (noAdjacentWs_tail m2) ?_
      intro x hx
      simp [hws2]
    · simp [headNotWs, hws2]
    · cases t with
      | nil => simp [lastNotWs, hws2]
      | cons u us =>
        have hus : lastNotWs (u :: us) = true := m4
        exact hus

/-- C10: for every input string, the cleaned text contains no newline,
contains no two consecutive whitespace characters, and has neither leading
nor trailing whitespace. -/
theorem clean_transcript_text_postconditions (s : String) :
    noNewline (clean_transcript_text s).data = true ∧
    noAdjacentWs (clean_transcript_text s).data = true ∧
    headNotWs (clean_transcript_text s).data = true ∧
    lastNotWs (clean_transcript_text s).data = true :=
  clean_tail_postconditions (collapseDups (removeFillers (removeBrackets s.data)))
